import Mathlib

/-!
Verification of the scorebook application (`app.py`).

The development shallowly embeds the two core pieces of the program:

* the daily score-ledger synchronizer (`save_scores`, app.py lines 111-140),
  modelled as a pure function from the committed store and the submitted form
  to either a new committed store (`db.session.commit()`) or a `SaveError`
  (the `ValueError` raised by `int()` / `float()`; the surrounding
  transaction is rolled back, leaving the committed store unchanged);

* the paginated PDF report renderer (`export_pdf`, app.py lines 166-236),
  modelled as a pure function producing the list of pages, each page being
  the list of `drawString` instructions it receives, in drawing order.

Geometry: reportlab measures in points with `mm = 72/25.4` points.  Every
vertical or horizontal quantity occurring in `export_pdf` is an integer
multiple of `1/127` point (`mm = 360/127` pt and the literal offset `2` pt
is `254/127` pt), so coordinates are represented exactly as integers in
units of `1/127` point: `mm = 360`, one point `= 127`.  This is an exact
rescaling of the arithmetic the program performs; no rounding is involved.
-/

/-! ### Python string primitives

`int(s)` and `float(s)` on strings, restricted to ASCII input without
digit-group underscores (the only inputs the application's HTML form can
produce).  `str.strip()` uses Python's default whitespace set. -/

/-- Python whitespace characters stripped by `str.strip()` (ASCII part). -/
def pyWs : List Char := [' ', '\t', '\n', '\r', '\x0b', '\x0c']

/-- Strip leading and trailing whitespace, as Python `str.strip()`. -/
def stripWs (cs : List Char) : List Char :=
  ((cs.dropWhile pyWs.contains).reverse.dropWhile pyWs.contains).reverse

/-- Value of a non-empty all-digit character list, else `none`. -/
def digitsVal? (cs : List Char) : Option Nat :=
  if cs = [] then none
  else if cs.all Char.isDigit then
    some (cs.foldl (fun a c => 10 * a + (c.toNat - 48)) 0)
  else none

/-- Embedding of Python `int(s)` for a string argument: optional surrounding
whitespace, optional sign, then decimal digits; anything else raises
`ValueError`, modelled as `none`. -/
def pyInt (s : String) : Option Int :=
  match stripWs s.data with
  | '+' :: cs => (digitsVal? cs).map Int.ofNat
  | '-' :: cs => (digitsVal? cs).map (fun n => -(n : Int))
  | cs => (digitsVal? cs).map Int.ofNat

/-- A Python float value as produced by `float(s)`: a finite value, kept
exactly as the parsed literal's components (sign, mantissa digits,
fraction length, exponent — the value is
`(-1)^neg * mant / 10^frac * 10^exp`), or an infinity or NaN literal.
The application never computes with a stored score: it only stores the
parsed value and reprints it, so the exact literal is a lossless
representation of the float the program holds (up to the rounding
`float()` itself would apply, which no claim depends on). -/
inductive PyFloat where
  | finite (neg : Bool) (mant : Nat) (frac : Nat) (exp : Int)
  | infinite (neg : Bool)
  | nan (neg : Bool)
deriving DecidableEq, Repr

/-- Numeric value of a digit list (caller guarantees digits only). -/
def digitsNat (cs : List Char) : Nat :=
  cs.foldl (fun a c => 10 * a + (c.toNat - 48)) 0

/-- Exponent suffix of a float literal: empty, or `e`/`E` followed by an
optionally signed non-empty digit string. -/
def pyExpSuffix : List Char → Option Int
  | [] => some 0
  | c :: cs =>
    if c = 'e' ∨ c = 'E' then
      match cs with
      | '+' :: ds => (digitsVal? ds).map Int.ofNat
      | '-' :: ds => (digitsVal? ds).map (fun n => -(n : Int))
      | ds => (digitsVal? ds).map Int.ofNat
    else none

/-- Finite part of the `float(s)` grammar after sign removal:
`digits [. digits] [exp]` or `. digits [exp]`, at least one mantissa
digit required; yields mantissa, fraction length and exponent. -/
def pyFloatFinite (cs : List Char) : Option (Nat × Nat × Int) :=
  let ip := cs.takeWhile Char.isDigit
  let rest := cs.dropWhile Char.isDigit
  let fp := match rest with
    | '.' :: r => r.takeWhile Char.isDigit
    | _ => []
  let rest2 := match rest with
    | '.' :: r => r.dropWhile Char.isDigit
    | _ => rest
  if ip = [] ∧ fp = [] then none
  else
    (pyExpSuffix rest2).map (fun e => (digitsNat (ip ++ fp), fp.length, e))

/-- `float(s)` after stripping whitespace and consuming the sign:
`inf`, `infinity`, `nan` (case-insensitive) or a finite literal. -/
def pyFloatUnsigned (neg : Bool) (cs : List Char) : Option PyFloat :=
  let low := cs.map Char.toLower
  if low = "inf".data ∨ low = "infinity".data then some (.infinite neg)
  else if low = "nan".data then some (.nan neg)
  else (pyFloatFinite cs).map (fun m => .finite neg m.1 m.2.1 m.2.2)

/-- Embedding of Python `float(s)` for a string argument (ASCII, no
digit-group underscores); `ValueError` is modelled as `none`. -/
def pyFloat (s : String) : Option PyFloat :=
  match stripWs s.data with
  | '+' :: cs => pyFloatUnsigned false cs
  | '-' :: cs => pyFloatUnsigned true cs
  | cs => pyFloatUnsigned false cs

/-! ### Data model

The `scores` table (app.py lines 31-51): one row per stored record, with
nullable `score`, `rank`, `note` columns and a `(the_date, subject_id)`
uniqueness constraint.  Dates are kept in their ISO `YYYY-MM-DD` form. -/

/-- One row of the `scores` table. -/
structure ScoreRow where
  the_date : String
  subject_id : Int
  score : Option PyFloat
  rank : Option Int
  note : Option String
deriving DecidableEq, Repr

/-- The committed contents of the `scores` table, in insertion order. -/
abbrev Store := List ScoreRow

/-- The filter `Score.query.filter_by(the_date=d, subject_id=sid)`. -/
def isKey (d : String) (sid : Int) (r : ScoreRow) : Bool :=
  r.the_date == d && r.subject_id == sid

/-- `Score.query.filter_by(the_date=d, subject_id=sid).first()`. -/
def findRow (st : Store) (d : String) (sid : Int) : Option ScoreRow :=
  st.find? (isKey d sid)

/-- `db.session.delete(row)` for the row found by `findRow`. -/
def eraseRow (st : Store) (d : String) (sid : Int) : Store :=
  st.eraseP (isKey d sid)

/-- Assigning `row.score`, `row.rank`, `row.note` on the row found by
`findRow`: the first row matching the key is overwritten in place. -/
def updateRow (d : String) (sid : Int) (s : Option PyFloat) (rk : Option Int)
    (n : Option String) : Store → Store
  | [] => []
  | r :: rs =>
    if isKey d sid r then
      { r with score := s, rank := rk, note := n } :: rs
    else r :: updateRow d sid s rk n rs

/-! ### Ledger synchronizer (`save_scores`, app.py lines 111-140) -/

/-- The submitted form: the `score_subject_ids` list
(`request.form.getlist`) plus the remaining key/value fields
(`request.form.get` returns the first value for a key, `none` if the key
is absent). -/
structure SaveForm where
  score_subject_ids : List String
  fields : List (String × String)
deriving Repr

/-- `request.form.get k`. -/
def formGet (f : SaveForm) (k : String) : Option String :=
  f.fields.lookup k

/-- The form key `score[{sid}]`. -/
def scoreKey (sid : Int) : String := "score[" ++ toString sid ++ "]"

/-- The form key `rank[{sid}]`. -/
def rankKey (sid : Int) : String := "rank[" ++ toString sid ++ "]"

/-- The form key `note[{sid}]`. -/
def noteKey (sid : Int) : String := "note[" ++ toString sid ++ "]"

/-- The `ValueError` a batch can raise, tagged with the raise site: a
subject-id entry that does not parse as an integer, a `score[sid]` value
rejected by `float()`, or a `rank[sid]` value rejected by `int()`. -/
inductive SaveError where
  | badSubjectId (sidStr : String)
  | badScore (sid : Int) (value : String)
  | badRank (sid : Int) (value : String)
deriving DecidableEq, Repr

instance {ε α : Type} [DecidableEq ε] [DecidableEq α] :
    DecidableEq (Except ε α) := fun a b =>
  match a, b with
  | .ok x, .ok y => decidable_of_iff (x = y) (by simp)
  | .error x, .error y => decidable_of_iff (x = y) (by simp)
  | .ok _, .error _ => isFalse (by simp)
  | .error _, .ok _ => isFalse (by simp)

/-- `float(score_val) if score_val not in (None, "") else None`. -/
def parseScoreField (sid : Int) (v : Option String) :
    Except SaveError (Option PyFloat) :=
  match v with
  | none => .ok none
  | some s =>
    if s = "" then .ok none
    else match pyFloat s with
      | some x => .ok (some x)
      | none => .error (.badScore sid s)

/-- `int(rank_val) if rank_val not in (None, "") else None`. -/
def parseRankField (sid : Int) (v : Option String) :
    Except SaveError (Option Int) :=
  match v with
  | none => .ok none
  | some s =>
    if s = "" then .ok none
    else match pyInt s with
      | some x => .ok (some x)
      | none => .error (.badRank sid s)

/-- `(note_val or "").strip() or None`. -/
def noteParse (v : Option String) : Option String :=
  let s : String := ⟨stripWs (v.getD "").data⟩
  if s = "" then none else some s

/-- The per-subject body of the `save_scores` loop (app.py lines 126-136):
delete the record when all three parsed values are absent, otherwise
insert-or-overwrite all three fields. -/
def applyEdit (st : Store) (d : String) (sid : Int) (score_f : Option PyFloat)
    (rank_i : Option Int) (note_s : Option String) : Store :=
  let row := findRow st d sid
  if score_f = none ∧ rank_i = none ∧ note_s = none then
    match row with
    | some _ => eraseRow st d sid
    | none => st
  else
    match row with
    | none => st ++ [⟨d, sid, score_f, rank_i, note_s⟩]
    | some _ => updateRow d sid score_f rank_i note_s st

/-- The parsing prefix of one loop iteration, in the program's evaluation
order: `int(sid_str)`, then the score field, then the rank field, then the
note normalization (which cannot fail). -/
def parseEntry (form : SaveForm) (sidStr : String) :
    Except SaveError (Int × Option PyFloat × Option Int × Option String) :=
  match pyInt sidStr with
  | none => .error (.badSubjectId sidStr)
  | some sid =>
    match parseScoreField sid (formGet form (scoreKey sid)) with
    | .error e => .error e
    | .ok score_f =>
      match parseRankField sid (formGet form (rankKey sid)) with
      | .error e => .error e
      | .ok rank_i =>
        .ok (sid, score_f, rank_i, noteParse (formGet form (noteKey sid)))

/-- The `for sid_str in ids` loop of `save_scores`, threading the session
state (with autoflush, each iteration's query sees the previous
iterations' pending changes). -/
def processIds (d : String) (form : SaveForm) :
    Store → List String → Except SaveError Store
  | st, [] => .ok st
  | st, sidStr :: rest =>
    match parseEntry form sidStr with
    | .error e => .error e
    | .ok (sid, score_f, rank_i, note_s) =>
      processIds d form (applyEdit st d sid score_f rank_i note_s) rest

/-- `save_scores` for one date: process every listed subject id, then
`db.session.commit()`; the result is the new committed store, or the
`ValueError` that aborted the batch. -/
def save_scores (st : Store) (d : String) (form : SaveForm) :
    Except SaveError Store :=
  processIds d form st form.score_subject_ids

/-- The `/scores/save` request as a whole: on success the session is
committed; on a `ValueError` the exception propagates, the transaction is
rolled back at request teardown and the committed store is unchanged. -/
def save_scores_route (st : Store) (d : String) (form : SaveForm) :
    Store × Option SaveError :=
  match save_scores st d form with
  | .ok st' => (st', none)
  | .error e => (st, some e)

/-! ### Report renderer (`export_pdf`, app.py lines 166-236) -/

/-- A registry entry of the `subjects` table. -/
structure Subject where
  id : Int
  name : String
deriving DecidableEq, Repr

/-- Byte-wise (code-point-wise) string comparison: the ordering SQLite's
default BINARY collation gives `ORDER BY subjects.name ASC` on UTF-8
text. -/
def charListLe : List Char → List Char → Bool
  | [], _ => true
  | _ :: _, [] => false
  | a :: as, b :: bs => if a = b then charListLe as bs else decide (a < b)

/-- `a.name` comes before `b.name` under `ORDER BY name ASC`. -/
def nameLe (a b : Subject) : Prop := charListLe a.name.data b.name.data = true

instance : DecidableRel nameLe := fun a b => by
  unfold nameLe; infer_instance

/-- `Subject.query.order_by(Subject.name.asc()).all()`. -/
def sortByName (l : List Subject) : List Subject :=
  l.insertionSort nameLe

/-- One millimetre, in units of `1/127` point (`mm = 72/25.4` pt). -/
def mmU : Int := 360

/-- One point, in units of `1/127` point. -/
def ptU : Int := 127

/-- A4 page height `297 * mm`. -/
def heightU : Int := 297 * mmU

/-- `line_h = 8 * mm`. -/
def lineHU : Int := 8 * mmU

/-- Vertical cursor position after drawing the column header:
`height - 30*mm` minus one `line_h`. -/
def yStartU : Int := heightU - 30 * mmU - lineHU

/-- The page-break threshold `20 * mm` of `if y < 20 * mm`. -/
def breakYU : Int := 20 * mmU

/-- `max_chars = 40`. -/
def maxNoteChars : Nat := 40

/-- One `canvas.drawString(x, y, text)` call (coordinates in units of
`1/127` point). -/
structure DrawInstr where
  x : Int
  y : Int
  text : String
deriving DecidableEq, Repr

/-- The instructions opening every page: the title (suffixed `（續）` on
continued pages) and the four column-header labels. -/
def headerInstrs (title : String) (continued : Bool) : List DrawInstr :=
  [⟨20 * mmU, heightU - 20 * mmU, if continued then title ++ "（續）" else title⟩,
   ⟨20 * mmU, heightU - 30 * mmU, "科目"⟩,
   ⟨60 * mmU, heightU - 30 * mmU, "分數"⟩,
   ⟨85 * mmU, heightU - 30 * mmU, "名次"⟩,
   ⟨110 * mmU, heightU - 30 * mmU, "備註"⟩]

/-- Fixed-width chunking with explicit fuel (any fuel of at least the
list's length yields `[l[0:n], l[n:2n], ...]`, Python's
`[s[i:i+n] for i in range(0, len(s), n)]`). -/
def chunksOfFuel (n : Nat) : Nat → List Char → List (List Char)
  | _, [] => []
  | 0, _ :: _ => []
  | fuel + 1, c :: cs => (c :: cs.take (n - 1)) :: chunksOfFuel n fuel (cs.drop (n - 1))

/-- `[s[i:i+n] for i in range(0, len(s), n)]` on the characters of `s`. -/
def chunksOf (n : Nat) (l : List Char) : List (List Char) :=
  chunksOfFuel n l.length l

/-- Drawing the continuation lines `lines[1:]` of a wrapped note: each one
first advances the cursor by `line_h - 2` (two points), then draws at
`110*mm`. -/
def noteWrapTail : List String → Int → List DrawInstr × Int
  | [], y => ([], y)
  | l :: ls, y =>
    let y2 := y - (lineHU - 2 * ptU)
    let (ins, y3) := noteWrapTail ls y2
    (⟨110 * mmU, y2, l⟩ :: ins, y3)

/-- The note cell of one row (app.py lines 219-228): wrap into 40-character
chunks when longer than `max_chars`, else a single draw. -/
def noteInstrs (note : String) (y : Int) : List DrawInstr × Int :=
  if note.length > maxNoteChars then
    match (chunksOf maxNoteChars note.data).map (fun c => String.mk c) with
    | [] => ([], y)
    | l0 :: rest =>
      let (ins, y2) := noteWrapTail rest y
      (⟨110 * mmU, y, l0⟩ :: ins, y2)
  else ([⟨110 * mmU, y, note⟩], y)

/-- The already-rendered text cells of one report row. -/
structure RowData where
  name : String
  score_str : String
  rank_str : String
  note_str : String
deriving DecidableEq, Repr

/-- Drawing one row at cursor `y` (app.py lines 215-230): label, score and
rank cells, then the note cell, then `y -= line_h`; returns the emitted
instructions and the new cursor. -/
def rowInstrs (r : RowData) (y : Int) : List DrawInstr × Int :=
  let (nins, y2) := noteInstrs r.note_str y
  (⟨20 * mmU, y, r.name⟩ :: ⟨60 * mmU, y, r.score_str⟩ ::
     ⟨85 * mmU, y, r.rank_str⟩ :: nins, y2 - lineHU)

/-- The subject loop of `export_pdf` (app.py lines 196-230) followed by the
final `c.showPage()`: before each row, if the cursor is past the bottom
margin the current page is closed and a fresh page is opened with the
continued title and header. -/
def pagesLoop (title : String) (cur : List DrawInstr) (y : Int) :
    List RowData → List (List DrawInstr)
  | [] => [cur]
  | r :: rs =>
    if y < breakYU then
      let (ins, y2) := rowInstrs r yStartU
      cur :: pagesLoop title (headerInstrs title true ++ ins) y2 rs
    else
      let (ins, y2) := rowInstrs r y
      pagesLoop title (cur ++ ins) y2 rs

/-- Rendering of a stored float by `str(row.score)`.  The application's
theorems never depend on the exact text of a present numeric cell, only on
absent cells rendering as `""`; finite values are shown as their exact
rational. -/
def pyFloatStr : PyFloat → String
  | .finite neg m f e =>
      (if neg then "-" else "") ++ toString m ++ "f" ++ toString f ++
        "e" ++ toString e
  | .infinite neg => if neg then "-inf" else "inf"
  | .nan _ => "nan"

/-- `Score.query.filter_by(the_date=d).all()`. -/
def scoresForDate (st : Store) (d : String) : List ScoreRow :=
  st.filter (fun r => r.the_date == d)

/-- `{s.subject_id: s for s in raw_scores}.get(sid)`: the last row wins
when a key repeats. -/
def scoresMapGet (rows : List ScoreRow) (sid : Int) : Option ScoreRow :=
  rows.foldl (fun acc r => if r.subject_id == sid then some r else acc) none

/-- The text cells computed for one subject (app.py lines 197-200):
`""` when no record exists for the date or the field is `NULL` (for the
note, also when it is the empty string, which is falsy). -/
def mkRow (d : String) (st : Store) (subj : Subject) : RowData :=
  match scoresMapGet (scoresForDate st d) subj.id with
  | none => ⟨subj.name, "", "", ""⟩
  | some r =>
    { name := subj.name
      score_str := match r.score with | none => "" | some f => pyFloatStr f
      rank_str := match r.rank with | none => "" | some i => toString i
      note_str := match r.note with
        | none => ""
        | some s => if s = "" then "" else s }

/-- The report title `f"家教學生成績 · {d}"`. -/
def reportTitle (d : String) : String := "家教學生成績 · " ++ d

/-- The rows fed to the drawing loop: one per registered subject, in
`ORDER BY name ASC` order. -/
def reportRows (d : String) (registry : List Subject) (st : Store) :
    List RowData :=
  (sortByName registry).map (mkRow d st)

/-- `export_pdf` for date `d`: the full page sequence of the generated
document, each page the list of its `drawString` calls in order. -/
def export_pdf (d : String) (registry : List Subject) (st : Store) :
    List (List DrawInstr) :=
  pagesLoop (reportTitle d) (headerInstrs (reportTitle d) false) yStartU
    (reportRows d registry st)

/-! ### Derived notions used by the statements -/

/-- The instructions a run of consecutive rows starting at cursor `y`
contributes to a single page. -/
def renderGroup (y : Int) : List RowData → List DrawInstr
  | [] => []
  | r :: rs => (rowInstrs r y).1 ++ renderGroup ((rowInstrs r y).2) rs

/-- The subject-label cells of one page: the draws in the label column
(`x = 20*mm`), minus the title and the `科目` header label. -/
def pageLabels (p : List DrawInstr) : List String :=
  ((p.filter (fun i => i.x == 20 * mmU)).map (fun i => i.text)).drop 2

/-- All subject-label cells of a page sequence, in drawing order. -/
def dataLabels (pages : List (List DrawInstr)) : List String :=
  (pages.map pageLabels).flatten

/-- The error `e` genuinely names an offending entry of the batch: a
subject-id string among `ids` that `int()` rejects, or a non-empty
submitted score (rank) value for a subject listed in `ids` that `float()`
(`int()`) rejects. -/
def ErrIdentifies (ids : List String) (form : SaveForm) : SaveError → Prop
  | .badSubjectId s => s ∈ ids ∧ pyInt s = none
  | .badScore sid v => formGet form (scoreKey sid) = some v ∧ v ≠ "" ∧
      pyFloat v = none ∧ ∃ s ∈ ids, pyInt s = some sid
  | .badRank sid v => formGet form (rankKey sid) = some v ∧ v ≠ "" ∧
      pyInt v = none ∧ ∃ s ∈ ids, pyInt s = some sid

/-- No stored record has all three of score, rank, note unset. -/
def NoDegenerate (st : Store) : Prop :=
  ∀ r ∈ st, ¬(r.score = none ∧ r.rank = none ∧ r.note = none)

/-- At most one record per `(the_date, subject_id)` key: the
`uq_score_date_subject` uniqueness constraint. -/
def UniqueKeys (st : Store) : Prop :=
  st.Pairwise (fun r1 r2 =>
    ¬(r1.the_date = r2.the_date ∧ r1.subject_id = r2.subject_id))

/-- All records stored under a given key, in store order. -/
def rowsFor (st : Store) (d : String) (sid : Int) : List ScoreRow :=
  st.filter (isKey d sid)

instance (st : Store) : Decidable (NoDegenerate st) := by
  unfold NoDegenerate
  infer_instance

instance (st : Store) : Decidable (UniqueKeys st) := by
  unfold UniqueKeys
  infer_instance

/-! ### Basic facts about the store operations -/

lemma isKey_mk (d : String) (sid : Int) (s : Option PyFloat) (rk : Option Int)
    (n : Option String) : isKey d sid ⟨d, sid, s, rk, n⟩ = true := by
  simp [isKey]

lemma isKey_iff {d : String} {sid : Int} {r : ScoreRow} :
    isKey d sid r = true ↔ r.the_date = d ∧ r.subject_id = sid := by
  simp [isKey]

lemma rowsFor_nil (d : String) (sid : Int) : rowsFor [] d sid = [] := rfl

lemma rowsFor_eq_nil_iff {st : Store} {d : String} {sid : Int} :
    rowsFor st d sid = [] ↔ ∀ r ∈ st, ¬isKey d sid r := by
  simp [rowsFor, List.filter_eq_nil_iff]

lemma findRow_eq_none_iff {st : Store} {d : String} {sid : Int} :
    findRow st d sid = none ↔ rowsFor st d sid = [] := by
  simp [findRow, rowsFor, List.find?_eq_none, List.filter_eq_nil_iff]

lemma rowsFor_eraseRow_self (st : Store) (d : String) (sid : Int) :
    rowsFor (eraseRow st d sid) d sid = (rowsFor st d sid).tail := by
  induction st with
  | nil => rfl
  | cons a t ih =>
    by_cases h : isKey d sid a
    · simp [rowsFor, eraseRow, List.eraseP_cons, h] at ih ⊢
    · simp [rowsFor, eraseRow, List.eraseP_cons, h] at ih ⊢
      exact ih

lemma rowsFor_eraseRow_other {st : Store} {d d2 : String} {sid sid2 : Int}
    (h : ¬(d2 = d ∧ sid2 = sid)) :
    rowsFor (eraseRow st d sid) d2 sid2 = rowsFor st d2 sid2 := by
  induction st with
  | nil => rfl
  | cons a t ih =>
    by_cases ha : isKey d sid a
    · have hq : ¬isKey d2 sid2 a := by
        rcases isKey_iff.mp ha with ⟨h1, h2⟩
        intro hb
        rcases isKey_iff.mp hb with ⟨h3, h4⟩
        exact h ⟨h3.symm.trans h1, h4.symm.trans h2⟩
      simp [rowsFor, eraseRow, List.eraseP_cons, ha, hq]
    · simp only [eraseRow, List.eraseP_cons, ha] at ih ⊢
      simp only [cond_false]
      by_cases hq : isKey d2 sid2 a
      · simpa [rowsFor, hq] using ih
      · simpa [rowsFor, hq] using ih

lemma mem_updateRow {d : String} {sid : Int} {s : Option PyFloat}
    {rk : Option Int} {n : Option String} {b : ScoreRow} :
    ∀ {t : Store}, b ∈ updateRow d sid s rk n t →
    (b ∈ t) ∨ (b.score = s ∧ b.rank = rk ∧ b.note = n ∧
      ∃ b' ∈ t, b.the_date = b'.the_date ∧ b.subject_id = b'.subject_id) := by
  intro t
  induction t with
  | nil => intro hb; simp [updateRow] at hb
  | cons a t ih =>
    intro hb
    by_cases ha : isKey d sid a
    · simp only [updateRow] at hb
      rw [if_pos ha] at hb
      rcases List.mem_cons.mp hb with hb | hb
      · subst hb
        exact .inr ⟨rfl, rfl, rfl, a, List.mem_cons_self a t, rfl, rfl⟩
      · exact .inl (List.mem_cons_of_mem a hb)
    · simp only [updateRow] at hb
      rw [if_neg ha] at hb
      rcases List.mem_cons.mp hb with hb | hb
      · exact .inl (by simp [hb])
      · rcases ih hb with h | ⟨h1, h2, h3, b', hb', hk1, hk2⟩
        · exact .inl (List.mem_cons_of_mem a h)
        · exact .inr ⟨h1, h2, h3, b', List.mem_cons_of_mem a hb', hk1, hk2⟩

lemma rowsFor_updateRow_self (d : String) (sid : Int) (s : Option PyFloat)
    (rk : Option Int) (n : Option String) (t : Store) :
    rowsFor (updateRow d sid s rk n t) d sid =
      match rowsFor t d sid with
      | [] => []
      | _ :: rest => ⟨d, sid, s, rk, n⟩ :: rest := by
  induction t with
  | nil => rfl
  | cons a t ih =>
    by_cases ha : isKey d sid a
    · rcases isKey_iff.mp ha with ⟨h1, h2⟩
      have : ({ a with score := s, rank := rk, note := n } : ScoreRow) =
          ⟨d, sid, s, rk, n⟩ := by
        cases a
        simp_all
      simp [updateRow, ha, rowsFor, List.filter_cons, this, isKey_mk]
    · simp [updateRow, ha, rowsFor, List.filter_cons] at ih ⊢
      exact ih

lemma rowsFor_updateRow_other {d d2 : String} {sid sid2 : Int}
    {s : Option PyFloat} {rk : Option Int} {n : Option String} {t : Store}
    (h : ¬(d2 = d ∧ sid2 = sid)) :
    rowsFor (updateRow d sid s rk n t) d2 sid2 = rowsFor t d2 sid2 := by
  induction t with
  | nil => rfl
  | cons a t ih =>
    by_cases ha : isKey d sid a
    · rcases isKey_iff.mp ha with ⟨h1, h2⟩
      have hq : ¬isKey d2 sid2 a := by
        intro hb
        rcases isKey_iff.mp hb with ⟨h3, h4⟩
        exact h ⟨h3.symm.trans h1, h4.symm.trans h2⟩
      have hq2 : ¬isKey d2 sid2 ({ a with score := s, rank := rk, note := n } : ScoreRow) := by
        intro hb
        rcases isKey_iff.mp hb with ⟨h3, h4⟩
        exact hq (isKey_iff.mpr ⟨h3, h4⟩)
      simp [updateRow, ha, rowsFor, List.filter_cons, hq, hq2]
    · by_cases hq : isKey d2 sid2 a
      · simp [updateRow, ha, rowsFor, List.filter_cons, hq] at ih ⊢
        exact ih
      · simp [updateRow, ha, rowsFor, List.filter_cons, hq] at ih ⊢
        exact ih

lemma rowsFor_append (st st2 : Store) (d : String) (sid : Int) :
    rowsFor (st ++ st2) d sid = rowsFor st d sid ++ rowsFor st2 d sid := by
  simp [rowsFor]

/-! ### The uniqueness constraint and the per-subject edit -/

lemma uniqueKeys_rowsFor_len {st : Store} (h : UniqueKeys st) (d : String)
    (sid : Int) : (rowsFor st d sid).length ≤ 1 := by
  induction st with
  | nil => simp [rowsFor]
  | cons a t ih =>
    rcases List.pairwise_cons.mp h with ⟨hrel, ht⟩
    by_cases ha : isKey d sid a
    · have hnil : rowsFor t d sid = [] := by
        rw [rowsFor_eq_nil_iff]
        intro b hb hkb
        rcases isKey_iff.mp ha with ⟨h1, h2⟩
        rcases isKey_iff.mp hkb with ⟨h3, h4⟩
        exact hrel b hb ⟨h1.trans h3.symm, h2.trans h4.symm⟩
      have hnil2 : t.filter (isKey d sid) = [] := hnil
      simp [rowsFor, List.filter_cons, ha, hnil2]
    · simpa [rowsFor, List.filter_cons, ha] using ih ht

lemma uniqueKeys_eraseRow {st : Store} (h : UniqueKeys st) (d : String)
    (sid : Int) : UniqueKeys (eraseRow st d sid) :=
  h.sublist (List.eraseP_sublist st)

lemma uniqueKeys_updateRow {st : Store} (h : UniqueKeys st) (d : String)
    (sid : Int) (s : Option PyFloat) (rk : Option Int) (n : Option String) :
    UniqueKeys (updateRow d sid s rk n st) := by
  induction st with
  | nil => exact h
  | cons a t ih =>
    rcases List.pairwise_cons.mp h with ⟨hrel, ht⟩
    by_cases ha : isKey d sid a
    · simp only [updateRow]
      rw [if_pos ha]
      exact List.pairwise_cons.mpr ⟨fun b hb hk => hrel b hb hk, ht⟩
    · simp only [updateRow]
      rw [if_neg ha]
      refine List.pairwise_cons.mpr ⟨?_, ih ht⟩
      intro b hb hk
      rcases mem_updateRow hb with hmem | ⟨_, _, _, b', hb', hk1, hk2⟩
      · exact hrel b hmem hk
      · exact hrel b' hb' ⟨hk.1.trans hk1, hk.2.trans hk2⟩

/-- The effect of one loop body on the edited key, under the uniqueness
constraint: all-absent values leave no record, any present value leaves
exactly the freshly written record. -/
lemma rowsFor_applyEdit_self {st : Store} (h : UniqueKeys st) (d : String)
    (sid : Int) (s : Option PyFloat) (rk : Option Int) (n : Option String) :
    rowsFor (applyEdit st d sid s rk n) d sid =
      if s = none ∧ rk = none ∧ n = none then [] else [⟨d, sid, s, rk, n⟩] := by
  have hlen := uniqueKeys_rowsFor_len h d sid
  have hsplit : rowsFor st d sid = [] ∨ ∃ r0, rowsFor st d sid = [r0] := by
    rcases hx : rowsFor st d sid with _ | ⟨a, rest⟩
    · exact .inl rfl
    · rw [hx] at hlen
      rcases rest with _ | ⟨b, rest2⟩
      · exact .inr ⟨a, rfl⟩
      · simp at hlen
  simp only [applyEdit]
  by_cases hall : s = none ∧ rk = none ∧ n = none
  · rw [if_pos hall, if_pos hall]
    cases hrow : findRow st d sid with
    | none => exact findRow_eq_none_iff.mp hrow
    | some r0 =>
      rw [rowsFor_eraseRow_self]
      rcases hsplit with hx | ⟨a, hx⟩
      · rw [hx]
        rfl
      · rw [hx]
        rfl
  · rw [if_neg hall, if_neg hall]
    cases hrow : findRow st d sid with
    | none =>
      rw [rowsFor_append, findRow_eq_none_iff.mp hrow]
      simp [rowsFor, List.filter_cons, isKey_mk]
    | some r0 =>
      have hne : rowsFor st d sid ≠ [] := by
        intro hx
        rw [← findRow_eq_none_iff, hrow] at hx
        cases hx
      rcases hsplit with hx | ⟨a, hx⟩
      · exact absurd hx hne
      · rw [rowsFor_updateRow_self, hx]

lemma rowsFor_applyEdit_other {st : Store} {d d2 : String} {sid sid2 : Int}
    (h : ¬(d2 = d ∧ sid2 = sid)) (s : Option PyFloat) (rk : Option Int)
    (n : Option String) :
    rowsFor (applyEdit st d sid s rk n) d2 sid2 = rowsFor st d2 sid2 := by
  simp only [applyEdit]
  by_cases hall : s = none ∧ rk = none ∧ n = none
  · rw [if_pos hall]
    cases findRow st d sid with
    | none => rfl
    | some r0 => exact rowsFor_eraseRow_other h
  · rw [if_neg hall]
    cases findRow st d sid with
    | none =>
      rw [rowsFor_append]
      have hone : rowsFor [(⟨d, sid, s, rk, n⟩ : ScoreRow)] d2 sid2 = [] := by
        rw [rowsFor_eq_nil_iff]
        intro b hb hkb
        simp at hb
        rcases isKey_iff.mp hkb with ⟨h3, h4⟩
        rw [hb] at h3 h4
        exact h ⟨h3.symm, h4.symm⟩
      rw [hone, List.append_nil]
    | some r0 => exact rowsFor_updateRow_other h

lemma uniqueKeys_applyEdit {st : Store} (h : UniqueKeys st) (d : String)
    (sid : Int) (s : Option PyFloat) (rk : Option Int) (n : Option String) :
    UniqueKeys (applyEdit st d sid s rk n) := by
  simp only [applyEdit]
  by_cases hall : s = none ∧ rk = none ∧ n = none
  · rw [if_pos hall]
    cases findRow st d sid with
    | none => exact h
    | some r0 => exact uniqueKeys_eraseRow h d sid
  · rw [if_neg hall]
    cases hrow : findRow st d sid with
    | none =>
      rw [UniqueKeys, List.pairwise_append]
      refine ⟨h, List.pairwise_singleton _ _, ?_⟩
      intro a ha b hb hk
      simp at hb
      have hnil := rowsFor_eq_nil_iff.mp (findRow_eq_none_iff.mp hrow)
      exact hnil a ha (isKey_iff.mpr ⟨hk.1.trans (by rw [hb]),
        hk.2.trans (by rw [hb])⟩)
    | some r0 => exact uniqueKeys_updateRow h d sid s rk n

lemma noDegenerate_applyEdit {st : Store} (h : NoDegenerate st) (d : String)
    (sid : Int) (s : Option PyFloat) (rk : Option Int) (n : Option String) :
    NoDegenerate (applyEdit st d sid s rk n) := by
  simp only [applyEdit]
  by_cases hall : s = none ∧ rk = none ∧ n = none
  · rw [if_pos hall]
    cases findRow st d sid with
    | none => exact h
    | some r0 =>
      intro b hb
      exact h b ((List.eraseP_sublist st).subset hb)
  · rw [if_neg hall]
    cases findRow st d sid with
    | none =>
      intro b hb
      rcases List.mem_append.mp hb with hb | hb
      · exact h b hb
      · simp at hb
        rw [hb]
        simpa using hall
    | some r0 =>
      intro b hb
      rcases mem_updateRow hb with hmem | ⟨h1, h2, h3, _, _, _, _⟩
      · exact h b hmem
      · rw [h1, h2, h3]
        simpa using hall

/-! ### Facts about the whole batch loop -/

lemma processIds_append (d : String) (form : SaveForm) (st : Store)
    (l1 l2 : List String) :
    processIds d form st (l1 ++ l2) =
      match processIds d form st l1 with
      | .ok st1 => processIds d form st1 l2
      | .error e => .error e := by
  induction l1 generalizing st with
  | nil => simp [processIds]
  | cons a t ih =>
    simp only [List.cons_append, processIds]
    cases parseEntry form a with
    | error e => rfl
    | ok q =>
      obtain ⟨sid, score_f, rank_i, note_s⟩ := q
      exact ih _

lemma processIds_ok_unique {d : String} {form : SaveForm} :
    ∀ {ids : List String} {st st' : Store}, UniqueKeys st →
      processIds d form st ids = .ok st' → UniqueKeys st' := by
  intro ids
  induction ids with
  | nil =>
    intro st st' h hok
    simp [processIds] at hok
    rwa [← hok]
  | cons a t ih =>
    intro st st' h hok
    simp only [processIds] at hok
    cases hpe : parseEntry form a with
    | error e => rw [hpe] at hok; cases hok
    | ok q =>
      obtain ⟨sid, score_f, rank_i, note_s⟩ := q
      rw [hpe] at hok
      exact ih (uniqueKeys_applyEdit h d sid _ _ _) hok

lemma processIds_ok_noDegenerate {d : String} {form : SaveForm} :
    ∀ {ids : List String} {st st' : Store}, NoDegenerate st →
      processIds d form st ids = .ok st' → NoDegenerate st' := by
  intro ids
  induction ids with
  | nil =>
    intro st st' h hok
    simp [processIds] at hok
    rwa [← hok]
  | cons a t ih =>
    intro st st' h hok
    simp only [processIds] at hok
    cases hpe : parseEntry form a with
    | error e => rw [hpe] at hok; cases hok
    | ok q =>
      obtain ⟨sid, score_f, rank_i, note_s⟩ := q
      rw [hpe] at hok
      exact ih (noDegenerate_applyEdit h d sid _ _ _) hok

lemma parseEntry_ok_sid {form : SaveForm} {a : String} {sid : Int}
    {sf : Option PyFloat} {rk : Option Int} {ns : Option String}
    (h : parseEntry form a = .ok (sid, sf, rk, ns)) : pyInt a = some sid := by
  cases hp : pyInt a with
  | none => simp only [parseEntry, hp] at h; cases h
  | some sid2 =>
    simp only [parseEntry, hp] at h
    cases hs : parseScoreField sid2 (formGet form (scoreKey sid2)) with
    | error e => simp only [hs] at h; cases h
    | ok score_f =>
      simp only [hs] at h
      cases hr : parseRankField sid2 (formGet form (rankKey sid2)) with
      | error e => simp only [hr] at h; cases h
      | ok rank_i =>
        simp only [hr, Except.ok.injEq, Prod.mk.injEq] at h
        rw [h.1]

lemma rowsFor_processIds_untouched {d : String} {form : SaveForm}
    {d2 : String} {sid2 : Int} :
    ∀ {ids : List String} {st st' : Store},
      (∀ a ∈ ids, ∀ sid, pyInt a = some sid → ¬(d2 = d ∧ sid2 = sid)) →
      processIds d form st ids = .ok st' →
      rowsFor st' d2 sid2 = rowsFor st d2 sid2 := by
  intro ids
  induction ids with
  | nil =>
    intro st st' _ hok
    simp [processIds] at hok
    rw [← hok]
  | cons a t ih =>
    intro st st' hno hok
    simp only [processIds] at hok
    cases hpe : parseEntry form a with
    | error e => rw [hpe] at hok; cases hok
    | ok q =>
      obtain ⟨sid, score_f, rank_i, note_s⟩ := q
      rw [hpe] at hok
      rw [ih (fun b hb => hno b (List.mem_cons_of_mem a hb)) hok]
      exact rowsFor_applyEdit_other
        (hno a (List.mem_cons_self a t) sid (parseEntry_ok_sid hpe)) _ _ _

lemma parseEntry_ok_fields {form : SaveForm} {a : String} {sid : Int}
    {sf : Option PyFloat} {rk : Option Int} {ns : Option String}
    (h : parseEntry form a = .ok (sid, sf, rk, ns)) :
    parseScoreField sid (formGet form (scoreKey sid)) = .ok sf ∧
    parseRankField sid (formGet form (rankKey sid)) = .ok rk ∧
    noteParse (formGet form (noteKey sid)) = ns := by
  have hsid := parseEntry_ok_sid h
  simp only [parseEntry, hsid] at h
  cases hs : parseScoreField sid (formGet form (scoreKey sid)) with
  | error e => simp only [hs] at h; cases h
  | ok score_f =>
    simp only [hs] at h
    cases hr : parseRankField sid (formGet form (rankKey sid)) with
    | error e => simp only [hr] at h; cases h
    | ok rank_i =>
      simp only [hr, Except.ok.injEq, Prod.mk.injEq] at h
      exact ⟨by rw [h.2.1], by rw [h.2.2.1], h.2.2.2⟩

lemma parseEntry_mk {form : SaveForm} {a : String} {sid : Int}
    {sf : Option PyFloat} {rk : Option Int} {ns : Option String}
    (hsid : pyInt a = some sid)
    (hsf : parseScoreField sid (formGet form (scoreKey sid)) = .ok sf)
    (hrk : parseRankField sid (formGet form (rankKey sid)) = .ok rk)
    (hns : noteParse (formGet form (noteKey sid)) = ns) :
    parseEntry form a = .ok (sid, sf, rk, ns) := by
  simp only [parseEntry, hsid, hsf, hrk, hns]

lemma parseScoreField_error {sid : Int} {w : Option String} {e : SaveError}
    (h : parseScoreField sid w = .error e) :
    ∃ v, w = some v ∧ v ≠ "" ∧ pyFloat v = none ∧ e = .badScore sid v := by
  cases w with
  | none => cases h
  | some s =>
    by_cases hs : s = ""
    · rw [parseScoreField, if_pos hs] at h
      cases h
    · rw [parseScoreField, if_neg hs] at h
      cases hp : pyFloat s with
      | none =>
        rw [hp] at h
        refine ⟨s, rfl, hs, hp, ?_⟩
        cases h
        rfl
      | some x => rw [hp] at h; cases h

lemma parseRankField_error {sid : Int} {w : Option String} {e : SaveError}
    (h : parseRankField sid w = .error e) :
    ∃ v, w = some v ∧ v ≠ "" ∧ pyInt v = none ∧ e = .badRank sid v := by
  cases w with
  | none => cases h
  | some s =>
    by_cases hs : s = ""
    · rw [parseRankField, if_pos hs] at h
      cases h
    · rw [parseRankField, if_neg hs] at h
      cases hp : pyInt s with
      | none =>
        rw [hp] at h
        refine ⟨s, rfl, hs, hp, ?_⟩
        cases h
        rfl
      | some x => rw [hp] at h; cases h

lemma parseScoreField_ok_of_good {sid : Int} {w : Option String} {v : String}
    (hw : w = some v) (hv : v ≠ "") {x : PyFloat} (hp : pyFloat v = some x) :
    parseScoreField sid w = .ok (some x) := by
  rw [hw, parseScoreField, if_neg hv, hp]

lemma parseRankField_ok_of_good {sid : Int} {w : Option String} {v : String}
    (hw : w = some v) (hv : v ≠ "") {x : Int} (hp : pyInt v = some x) :
    parseRankField sid w = .ok (some x) := by
  rw [hw, parseRankField, if_neg hv, hp]

lemma errIdentifies_mono {ids ids2 : List String} {form : SaveForm}
    {e : SaveError} (hsub : ∀ a ∈ ids, a ∈ ids2)
    (h : ErrIdentifies ids form e) : ErrIdentifies ids2 form e := by
  cases e with
  | badSubjectId s => exact ⟨hsub s h.1, h.2⟩
  | badScore sid v =>
    obtain ⟨h1, h2, h3, s, hs, hps⟩ := h
    exact ⟨h1, h2, h3, s, hsub s hs, hps⟩
  | badRank sid v =>
    obtain ⟨h1, h2, h3, s, hs, hps⟩ := h
    exact ⟨h1, h2, h3, s, hsub s hs, hps⟩

lemma parseEntry_error_identifies {form : SaveForm} {a : String}
    {e : SaveError} {ids : List String} (ha : a ∈ ids)
    (h : parseEntry form a = .error e) : ErrIdentifies ids form e := by
  cases hp : pyInt a with
  | none =>
    simp only [parseEntry, hp] at h
    cases h
    exact ⟨ha, hp⟩
  | some sid =>
    simp only [parseEntry, hp] at h
    cases hs : parseScoreField sid (formGet form (scoreKey sid)) with
    | error e0 =>
      simp only [hs] at h
      cases h
      obtain ⟨v, hw, hv, hpf, he⟩ := parseScoreField_error hs
      cases he
      exact ⟨hw, hv, hpf, a, ha, hp⟩
    | ok score_f =>
      simp only [hs] at h
      cases hr : parseRankField sid (formGet form (rankKey sid)) with
      | error e0 =>
        simp only [hr] at h
        cases h
        obtain ⟨v, hw, hv, hpi, he⟩ := parseRankField_error hr
        cases he
        exact ⟨hw, hv, hpi, a, ha, hp⟩
      | ok rank_i => simp only [hr] at h; cases h

/-- If any listed entry offends — an unparsable subject id, or a non-empty
score (rank) field value rejected by `float()` (`int()`) — the loop raises
a `ValueError` that names a genuine offender, and no state is committed. -/
lemma processIds_error_of_offender {d : String} {form : SaveForm} :
    ∀ {ids : List String} {st : Store},
      (∃ a ∈ ids, pyInt a = none ∨ ∃ sid, pyInt a = some sid ∧
        ((∃ v, formGet form (scoreKey sid) = some v ∧ v ≠ "" ∧ pyFloat v = none) ∨
         (∃ v, formGet form (rankKey sid) = some v ∧ v ≠ "" ∧ pyInt v = none))) →
      ∃ e, processIds d form st ids = .error e ∧ ErrIdentifies ids form e := by
  intro ids
  induction ids with
  | nil =>
    intro st h
    obtain ⟨a, ha, _⟩ := h
    cases ha
  | cons a t ih =>
    intro st h
    cases hpe : parseEntry form a with
    | error e =>
      refine ⟨e, ?_, parseEntry_error_identifies (List.mem_cons_self a t) hpe⟩
      simp only [processIds, hpe]
    | ok q =>
      obtain ⟨sid, score_f, rank_i, note_s⟩ := q
      have hsid := parseEntry_ok_sid hpe
      obtain ⟨hsf, hrf, _⟩ := parseEntry_ok_fields hpe
      have ht : ∃ a2 ∈ t, pyInt a2 = none ∨ ∃ sid2, pyInt a2 = some sid2 ∧
          ((∃ v, formGet form (scoreKey sid2) = some v ∧ v ≠ "" ∧ pyFloat v = none) ∨
           (∃ v, formGet form (rankKey sid2) = some v ∧ v ≠ "" ∧ pyInt v = none)) := by
        obtain ⟨a0, ha0, hcase⟩ := h
        rcases List.mem_cons.mp ha0 with rfl | hmem
        · exfalso
          rcases hcase with hnone | ⟨sid0, hsid0, hbad⟩
          · rw [hsid] at hnone
            cases hnone
          · rw [hsid] at hsid0
            cases hsid0
            rcases hbad with ⟨v, hw, hv, hpf⟩ | ⟨v, hw, hv, hpi⟩
            · rw [hw, parseScoreField, if_neg hv, hpf] at hsf
              cases hsf
            · rw [hw, parseRankField, if_neg hv, hpi] at hrf
              cases hrf
        · exact ⟨a0, hmem, hcase⟩
      obtain ⟨e, he, hid⟩ := @ih (applyEdit st d sid score_f rank_i note_s) ht
      refine ⟨e, ?_, errIdentifies_mono (fun b hb => List.mem_cons_of_mem a hb) hid⟩
      simp only [processIds, hpe, he]

/-- After a successful batch, the key edited by the last listed occurrence
of a subject holds exactly that occurrence's parsed values (or nothing,
when all three parsed absent). -/
lemma rowsFor_save_last {st st' : Store} {d : String} {form : SaveForm}
    {l1 l2 : List String} {a : String} {sid : Int} {sf : Option PyFloat}
    {rf : Option Int} {ns : Option String} (hu : UniqueKeys st)
    (hids : form.score_subject_ids = l1 ++ a :: l2)
    (hpe : parseEntry form a = .ok (sid, sf, rf, ns))
    (hl2 : ∀ b ∈ l2, pyInt b ≠ some sid)
    (hok : save_scores st d form = .ok st') :
    rowsFor st' d sid =
      if sf = none ∧ rf = none ∧ ns = none then [] else [⟨d, sid, sf, rf, ns⟩] := by
  rw [save_scores, hids, processIds_append] at hok
  cases h1 : processIds d form st l1 with
  | error e => rw [h1] at hok; cases hok
  | ok st1 =>
    rw [h1] at hok
    have hu1 := processIds_ok_unique hu h1
    simp only [processIds, hpe] at hok
    have huntouched := @rowsFor_processIds_untouched d form d sid l2
      (applyEdit st1 d sid sf rf ns) st'
      (fun b hb sid2 hp hdk => hl2 b hb (by rw [hp, hdk.2])) hok
    rw [huntouched]
    exact rowsFor_applyEdit_self hu1 d sid sf rf ns

/-! ### Claims about the ledger synchronizer -/

/-- C1: for every batch submitted for one date, if any submitted score or
rank value is a non-empty string that is not a valid numeric literal, the
whole batch is rejected with a validation error identifying the offending
subject and field, and the committed record store is left exactly in its
pre-submission state. -/
theorem c1_invalid_numeric_rejects_batch (st : Store) (d : String)
    (form : SaveForm) (a : String) (sid : Int) (v : String)
    (ha : a ∈ form.score_subject_ids) (hsid : pyInt a = some sid)
    (hbad : (formGet form (scoreKey sid) = some v ∧ v ≠ "" ∧ pyFloat v = none) ∨
            (formGet form (rankKey sid) = some v ∧ v ≠ "" ∧ pyInt v = none)) :
    ∃ e, save_scores st d form = .error e ∧
      ErrIdentifies form.score_subject_ids form e ∧
      save_scores_route st d form = (st, some e) := by
  have hoff : ∃ b ∈ form.score_subject_ids, pyInt b = none ∨
      ∃ sid2, pyInt b = some sid2 ∧
        ((∃ w, formGet form (scoreKey sid2) = some w ∧ w ≠ "" ∧ pyFloat w = none) ∨
         (∃ w, formGet form (rankKey sid2) = some w ∧ w ≠ "" ∧ pyInt w = none)) :=
    ⟨a, ha, .inr ⟨sid, hsid, hbad.imp (fun h => ⟨v, h⟩) (fun h => ⟨v, h⟩)⟩⟩
  obtain ⟨e, he, hid⟩ := processIds_error_of_offender hoff
  have he2 : save_scores st d form = .error e := he
  exact ⟨e, he2, hid, by simp only [save_scores_route, he2]⟩

/-- C1 witness: a concrete batch with score value `"abc"` is rejected with
an identifying error and the committed store is unchanged. -/
theorem c1_witness :
    ∃ e, save_scores [⟨"2024-01-10", 2, some (.finite false 7 0 0), none, none⟩]
        "2024-01-10" ⟨["1", "2"], [("score[1]", "abc"), ("score[2]", "9")]⟩ = .error e ∧
      ErrIdentifies ["1", "2"]
        ⟨["1", "2"], [("score[1]", "abc"), ("score[2]", "9")]⟩ e ∧
      save_scores_route [⟨"2024-01-10", 2, some (.finite false 7 0 0), none, none⟩]
        "2024-01-10" ⟨["1", "2"], [("score[1]", "abc"), ("score[2]", "9")]⟩ =
        ([⟨"2024-01-10", 2, some (.finite false 7 0 0), none, none⟩], some e) :=
  c1_invalid_numeric_rejects_batch _ "2024-01-10" _ "1" 1 "abc"
    (by decide) (by decide) (.inl ⟨by decide, by decide, by decide⟩)

/-- C2 counterexample: the claim fails on the code.  For a subject id that
is listed in `score_subject_ids` but whose `score[id]`, `rank[id]` and
`note[id]` keys are all absent from the submission, the subject is not
skipped: its existing record for the date is deleted. -/
theorem c2_counterexample :
    formGet ⟨["1"], []⟩ (scoreKey 1) = none ∧
    formGet ⟨["1"], []⟩ (rankKey 1) = none ∧
    formGet ⟨["1"], []⟩ (noteKey 1) = none ∧
    save_scores [⟨"2024-01-10", 1, some (.finite false 88 0 0), none, none⟩]
      "2024-01-10" ⟨["1"], []⟩ = .ok [] ∧
    ([] : Store) ≠ [⟨"2024-01-10", 1, some (.finite false 88 0 0), none, none⟩] := by
  decide

/-- C2 (amended): a subject id that does not occur (as the `int()` parse of
an entry) in the submitted `score_subject_ids` list is skipped entirely:
its records for the date are left unchanged and in particular not deleted.
(A listed subject id whose field keys are all absent is instead treated
exactly like an all-empty submission, which deletes an existing record.) -/
theorem c2_amended_unlisted_subject_skipped (st : Store) (d : String)
    (form : SaveForm) (sid : Int) (st' : Store)
    (h : ∀ a ∈ form.score_subject_ids, pyInt a ≠ some sid)
    (hok : save_scores st d form = .ok st') :
    rowsFor st' d sid = rowsFor st d sid :=
  rowsFor_processIds_untouched
    (fun a ha sid2 hp hdk => h a ha (by rw [hp, hdk.2])) hok

/-- C2 witness: a batch listing only subject 2 leaves subject 1's record
for the date untouched. -/
theorem c2_amended_witness :
    rowsFor [⟨"2024-01-10", 1, some (.finite false 88 0 0), none, none⟩,
        ⟨"2024-01-10", 2, some (.finite false 9 0 0), none, none⟩]
      "2024-01-10" 1 =
    rowsFor [⟨"2024-01-10", 1, some (.finite false 88 0 0), none, none⟩]
      "2024-01-10" 1 :=
  c2_amended_unlisted_subject_skipped
    [⟨"2024-01-10", 1, some (.finite false 88 0 0), none, none⟩]
    "2024-01-10" ⟨["2"], [("score[2]", "9")]⟩ 1 _ (by decide) (by decide)

/-- C3: a subject processed with at least one of score, rank, note parsed
present ends up with a record holding exactly the three parsed values (a
field parsed absent becomes unset even if a prior record had it — full
overwrite, never a merge), and a whitespace-only submitted note parses as
absent. -/
theorem c3_full_overwrite_of_parsed_values (st st' : Store) (d : String)
    (form : SaveForm) (l1 l2 : List String) (a : String) (sid : Int)
    (sf : Option PyFloat) (rf : Option Int) (ns : Option String)
    (hu : UniqueKeys st)
    (hids : form.score_subject_ids = l1 ++ a :: l2)
    (hsid : pyInt a = some sid)
    (hsf : parseScoreField sid (formGet form (scoreKey sid)) = .ok sf)
    (hrf : parseRankField sid (formGet form (rankKey sid)) = .ok rf)
    (hns : noteParse (formGet form (noteKey sid)) = ns)
    (hlast : ∀ b ∈ l2, pyInt b ≠ some sid)
    (hpresent : ¬(sf = none ∧ rf = none ∧ ns = none))
    (hok : save_scores st d form = .ok st') :
    rowsFor st' d sid = [⟨d, sid, sf, rf, ns⟩] ∧ noteParse (some "  ") = none := by
  constructor
  · have h := rowsFor_save_last hu hids (parseEntry_mk hsid hsf hrf hns) hlast hok
    rwa [if_neg hpresent] at h
  · rfl

/-- C3 witness: the specification's own example — score "88" and rank "2"
for subject 1 (overwriting its prior note) and a whitespace-only note for
subject 2 — stores exactly score=88, rank=2, note unset for subject 1. -/
theorem c3_witness :
    rowsFor [⟨"2024-01-10", 1, some (.finite false 88 0 0), some 2, none⟩]
      "2024-01-10" 1 =
      [⟨"2024-01-10", 1, some (.finite false 88 0 0), some 2, none⟩] ∧
    noteParse (some "  ") = none :=
  c3_full_overwrite_of_parsed_values
    [⟨"2024-01-10", 1, none, none, some "old note"⟩] _ "2024-01-10"
    ⟨["1", "2"], [("score[1]", "88"), ("rank[1]", "2"), ("note[2]", "  ")]⟩
    [] ["2"] "1" 1 (some (.finite false 88 0 0)) (some 2) none
    (by decide) rfl (by decide) (by decide) (by decide) (by decide)
    (by decide) (by decide) (by decide)

/-- C4: submitting all three fields empty for a (date, subject) deletes the
existing record and is a no-op otherwise (repeating it is again a no-op);
and any successful synchronize preserves the invariant that no record with
score, rank and note all unset exists. -/
theorem c4_all_empty_deletes_and_no_degenerate (st : Store) (d : String)
    (form : SaveForm) (a : String) (sid : Int)
    (hu : UniqueKeys st)
    (hids : form.score_subject_ids = [a])
    (hsid : pyInt a = some sid)
    (hsc : formGet form (scoreKey sid) = some "")
    (hrk : formGet form (rankKey sid) = some "")
    (hnt : formGet form (noteKey sid) = some "") :
    (findRow st d sid = none → save_scores st d form = .ok st) ∧
    (∀ r0, findRow st d sid = some r0 →
      ∃ st', save_scores st d form = .ok st' ∧ rowsFor st' d sid = [] ∧
        save_scores st' d form = .ok st') ∧
    (∀ (st2 st2' : Store) (d2 : String) (form2 : SaveForm),
      NoDegenerate st2 → save_scores st2 d2 form2 = .ok st2' →
        NoDegenerate st2') := by
  have hpe : parseEntry form a = .ok (sid, none, none, none) :=
    parseEntry_mk hsid (by rw [hsc]; rfl) (by rw [hrk]; rfl) (by rw [hnt]; rfl)
  have hsave : ∀ s0 : Store,
      save_scores s0 d form = .ok (applyEdit s0 d sid none none none) := by
    intro s0
    rw [save_scores, hids]
    simp only [processIds, hpe]
  have htail : rowsFor (eraseRow st d sid) d sid = [] := by
    rw [rowsFor_eraseRow_self]
    have hlen := uniqueKeys_rowsFor_len hu d sid
    cases hx : rowsFor st d sid with
    | nil => rfl
    | cons b rest =>
      rw [hx] at hlen
      cases rest with
      | nil => rfl
      | cons c r2 => simp at hlen
  refine ⟨?_, ?_, fun st2 st2' d2 form2 h2 hok => processIds_ok_noDegenerate h2 hok⟩
  · intro hnone
    rw [hsave st]
    simp [applyEdit, hnone]
  · intro r0 hr0
    have happ : applyEdit st d sid none none none = eraseRow st d sid := by
      simp [applyEdit, hr0]
    refine ⟨eraseRow st d sid, by rw [hsave st, happ], htail, ?_⟩
    have hnone2 : findRow (eraseRow st d sid) d sid = none :=
      findRow_eq_none_iff.mpr htail
    rw [hsave (eraseRow st d sid)]
    simp [applyEdit, hnone2]

/-- C4 witness: an all-empty submission for subject 1 deletes its record,
and repeating it is a no-op. -/
theorem c4_witness :
    ∃ st', save_scores [⟨"2024-01-10", 1, some (.finite false 88 0 0), none, none⟩]
        "2024-01-10"
        ⟨["1"], [("score[1]", ""), ("rank[1]", ""), ("note[1]", "")]⟩ = .ok st' ∧
      rowsFor st' "2024-01-10" 1 = [] ∧
      save_scores st' "2024-01-10"
        ⟨["1"], [("score[1]", ""), ("rank[1]", ""), ("note[1]", "")]⟩ = .ok st' :=
  (c4_all_empty_deletes_and_no_degenerate
    [⟨"2024-01-10", 1, some (.finite false 88 0 0), none, none⟩] "2024-01-10"
    ⟨["1"], [("score[1]", ""), ("rank[1]", ""), ("note[1]", "")]⟩ "1" 1
    (by decide) rfl (by decide) (by decide) (by decide) (by decide)).2.1
    ⟨"2024-01-10", 1, some (.finite false 88 0 0), none, none⟩ (by decide)

/-- C5: the uniqueness constraint is preserved by every successful batch,
and submitting the same non-empty single-subject edit twice leaves exactly
one record for the (date, subject) key, holding the submitted values. -/
theorem c5_idempotent_and_unique (st : Store) (d : String) (form : SaveForm)
    (a : String) (sid : Int) (sf : Option PyFloat) (rf : Option Int)
    (ns : Option String)
    (hu : UniqueKeys st)
    (hids : form.score_subject_ids = [a])
    (hsid : pyInt a = some sid)
    (hsf : parseScoreField sid (formGet form (scoreKey sid)) = .ok sf)
    (hrf : parseRankField sid (formGet form (rankKey sid)) = .ok rf)
    (hns : noteParse (formGet form (noteKey sid)) = ns)
    (hpresent : ¬(sf = none ∧ rf = none ∧ ns = none)) :
    (∀ (st2 st2' : Store) (d2 : String) (form2 : SaveForm),
      UniqueKeys st2 → save_scores st2 d2 form2 = .ok st2' →
        UniqueKeys st2') ∧
    ∃ st1 st2, save_scores st d form = .ok st1 ∧
      save_scores st1 d form = .ok st2 ∧
      rowsFor st1 d sid = [⟨d, sid, sf, rf, ns⟩] ∧
      rowsFor st2 d sid = [⟨d, sid, sf, rf, ns⟩] := by
  have hpe := parseEntry_mk hsid hsf hrf hns
  have hsave : ∀ s0 : Store,
      save_scores s0 d form = .ok (applyEdit s0 d sid sf rf ns) := by
    intro s0
    rw [save_scores, hids]
    simp only [processIds, hpe]
  refine ⟨fun st2 st2' d2 form2 h2 hok => processIds_ok_unique h2 hok,
    applyEdit st d sid sf rf ns,
    applyEdit (applyEdit st d sid sf rf ns) d sid sf rf ns,
    hsave st, hsave _, ?_, ?_⟩
  · have h := rowsFor_applyEdit_self hu d sid sf rf ns
    rwa [if_neg hpresent] at h
  · have hu1 := uniqueKeys_applyEdit hu d sid sf rf ns
    have h := rowsFor_applyEdit_self hu1 d sid sf rf ns
    rwa [if_neg hpresent] at h

/-- C5 witness: submitting score 88, rank 2 for subject 1 twice leaves
exactly one record with those values. -/
theorem c5_witness :
    (∀ (st2 st2' : Store) (d2 : String) (form2 : SaveForm),
      UniqueKeys st2 → save_scores st2 d2 form2 = .ok st2' →
        UniqueKeys st2') ∧
    ∃ st1 st2, save_scores [] "2024-01-10"
        ⟨["1"], [("score[1]", "88"), ("rank[1]", "2")]⟩ = .ok st1 ∧
      save_scores st1 "2024-01-10"
        ⟨["1"], [("score[1]", "88"), ("rank[1]", "2")]⟩ = .ok st2 ∧
      rowsFor st1 "2024-01-10" 1 =
        [⟨"2024-01-10", 1, some (.finite false 88 0 0), some 2, none⟩] ∧
      rowsFor st2 "2024-01-10" 1 =
        [⟨"2024-01-10", 1, some (.finite false 88 0 0), some 2, none⟩] :=
  c5_idempotent_and_unique [] "2024-01-10"
    ⟨["1"], [("score[1]", "88"), ("rank[1]", "2")]⟩ "1" 1
    (some (.finite false 88 0 0)) (some 2) none
    (by decide) rfl (by decide) (by decide) (by decide) (by decide) (by decide)

/-- C6 counterexample: the claim fails on the code.  The rank string "-3"
is accepted by `int()` and the synchronizer stores the non-positive rank
-3 verbatim — no positivity check exists. -/
theorem c6_counterexample :
    save_scores [] "2024-01-10" ⟨["1"], [("rank[1]", "-3")]⟩ =
      .ok [⟨"2024-01-10", 1, none, some (-3), none⟩] ∧
    ¬(0 < (-3 : Int)) := by decide

/-- C6 (amended): the stored rank, when set, is exactly the integer
`int()` yields for the submitted string — any integer, including zero and
negative values; the synchronizer performs no positivity check. -/
theorem c6_amended_rank_stored_verbatim (st : Store) (d : String)
    (form : SaveForm) (a : String) (sid : Int) (v : String) (r : Int)
    (sf : Option PyFloat) (ns : Option String)
    (hu : UniqueKeys st) (hids : form.score_subject_ids = [a])
    (hsid : pyInt a = some sid)
    (hsf : parseScoreField sid (formGet form (scoreKey sid)) = .ok sf)
    (hv : formGet form (rankKey sid) = some v) (hvne : v ≠ "")
    (hr : pyInt v = some r)
    (hns : noteParse (formGet form (noteKey sid)) = ns) :
    ∃ st', save_scores st d form = .ok st' ∧
      rowsFor st' d sid = [⟨d, sid, sf, some r, ns⟩] := by
  have hrf : parseRankField sid (formGet form (rankKey sid)) = .ok (some r) :=
    parseRankField_ok_of_good hv hvne hr
  have hpe := parseEntry_mk hsid hsf hrf hns
  have hsave : save_scores st d form = .ok (applyEdit st d sid sf (some r) ns) := by
    rw [save_scores, hids]
    simp only [processIds, hpe]
  refine ⟨_, hsave, ?_⟩
  have h := rowsFor_applyEdit_self hu d sid sf (some r) ns
  rwa [if_neg (by simp)] at h

/-- C6 witness: the negative rank -3 is stored as-is. -/
theorem c6_amended_witness :
    ∃ st', save_scores [] "2024-01-10" ⟨["1"], [("rank[1]", "-3")]⟩ = .ok st' ∧
      rowsFor st' "2024-01-10" 1 = [⟨"2024-01-10", 1, none, some (-3), none⟩] :=
  c6_amended_rank_stored_verbatim [] "2024-01-10"
    ⟨["1"], [("rank[1]", "-3")]⟩ "1" 1 "-3" (-3) none none
    (by decide) rfl (by decide) (by decide) (by decide) (by decide)
    (by decide) (by decide)

/-! ### Facts about the report renderer -/

lemma chunksOfFuel_flatten (n : Nat) (hn : 0 < n) :
    ∀ (fuel : Nat) (l : List Char), l.length ≤ fuel →
      (chunksOfFuel n fuel l).flatten = l := by
  intro fuel
  induction fuel with
  | zero =>
    intro l hl
    cases l with
    | nil => rfl
    | cons c cs => simp at hl
  | succ f ih =>
    intro l hl
    cases l with
    | nil => rfl
    | cons c cs =>
      simp only [chunksOfFuel, List.flatten_cons]
      rw [ih (cs.drop (n - 1)) ?_]
      · simp [List.take_append_drop]
      · calc (cs.drop (n - 1)).length = cs.length - (n - 1) :=
            List.length_drop _ _
          _ ≤ cs.length := Nat.sub_le _ _
          _ ≤ f := Nat.le_of_succ_le_succ hl

lemma chunksOf_flatten (n : Nat) (hn : 0 < n) (l : List Char) :
    (chunksOf n l).flatten = l :=
  chunksOfFuel_flatten n hn l.length l le_rfl

lemma stringFoldl_append_mk (ls : List (List Char)) :
    ∀ acc : List Char,
      List.foldl (fun r s => r ++ s) (String.mk acc)
        (ls.map (fun c => String.mk c)) = String.mk (acc ++ ls.flatten) := by
  induction ls with
  | nil => intro acc; simp
  | cons a t ih =>
    intro acc
    simp only [List.map_cons, List.foldl_cons]
    have happ : String.mk acc ++ String.mk a = String.mk (acc ++ a) := rfl
    rw [happ, ih, List.flatten_cons, List.append_assoc]

lemma stringJoin_map_mk (ls : List (List Char)) :
    String.join (ls.map (fun c => String.mk c)) = String.mk ls.flatten := by
  have h := stringFoldl_append_mk ls []
  simpa [String.join] using h

lemma noteWrapTail_fst : ∀ (ls : List String) (y : Int),
    (noteWrapTail ls y).1.map (fun i => i.text) = ls := by
  intro ls
  induction ls with
  | nil => intro y; rfl
  | cons l t ih =>
    intro y
    simp only [noteWrapTail, List.map_cons, List.cons.injEq]
    exact ⟨trivial, ih _⟩

lemma noteWrapTail_x : ∀ (ls : List String) (y : Int),
    ∀ i ∈ (noteWrapTail ls y).1, i.x = 110 * mmU := by
  intro ls
  induction ls with
  | nil => intro y i hi; cases hi
  | cons l t ih =>
    intro y i hi
    rcases List.mem_cons.mp hi with h | h
    · rw [h]
    · exact ih _ i h

lemma noteInstrs_x (note : String) (y : Int) :
    ∀ i ∈ (noteInstrs note y).1, i.x = 110 * mmU := by
  intro i hi
  unfold noteInstrs at hi
  by_cases hlen : note.length > maxNoteChars
  · rw [if_pos hlen] at hi
    cases hch : (chunksOf maxNoteChars note.data).map (fun c => String.mk c) with
    | nil => rw [hch] at hi; cases hi
    | cons l0 rest =>
      rw [hch] at hi
      rcases List.mem_cons.mp hi with h | h
      · rw [h]
      · exact noteWrapTail_x rest y i h
  · rw [if_neg hlen] at hi
    rcases List.mem_cons.mp hi with h | h
    · rw [h]
    · cases h

lemma noteInstrs_texts_join (note : String) (y : Int) :
    String.join ((noteInstrs note y).1.map (fun i => i.text)) = note := by
  unfold noteInstrs
  by_cases hlen : note.length > maxNoteChars
  · rw [if_pos hlen]
    cases hch : (chunksOf maxNoteChars note.data).map (fun c => String.mk c) with
    | nil =>
      exfalso
      have hne : note.data ≠ [] := by
        intro h0
        rw [show note.length = note.data.length from rfl, h0] at hlen
        simp [maxNoteChars] at hlen
      cases hd : note.data with
      | nil => exact hne hd
      | cons c cs =>
        rw [hd] at hch
        simp [chunksOf, chunksOfFuel] at hch
    | cons l0 rest =>
      show String.join ((⟨110 * mmU, y, l0⟩ ::
        (noteWrapTail rest y).1).map (fun i => i.text)) = note
      have hmap : (⟨110 * mmU, y, l0⟩ ::
          (noteWrapTail rest y).1 : List DrawInstr).map (fun i => i.text) =
          l0 :: rest := by
        simp only [List.map_cons, List.cons.injEq]
        exact ⟨trivial, noteWrapTail_fst rest y⟩
      rw [hmap, ← hch, stringJoin_map_mk,
        chunksOf_flatten maxNoteChars (by decide) note.data]
  · rw [if_neg hlen]
    show String.join [note] = note
    rfl

lemma x20_beq : ((20 * mmU : Int) == 20 * mmU) = true := by decide

lemma x60_beq : ((60 * mmU : Int) == 20 * mmU) = false := by decide

lemma x85_beq : ((85 * mmU : Int) == 20 * mmU) = false := by decide

lemma x110_beq : ((110 * mmU : Int) == 20 * mmU) = false := by decide

lemma noteInstrs_filter_label (note : String) (y : Int) :
    (noteInstrs note y).1.filter (fun i => i.x == 20 * mmU) = [] := by
  rw [List.filter_eq_nil_iff]
  intro i hi
  have hx := noteInstrs_x note y i hi
  rw [hx]
  decide

lemma rowInstrs_fst (r : RowData) (y : Int) :
    (rowInstrs r y).1 = ⟨20 * mmU, y, r.name⟩ :: ⟨60 * mmU, y, r.score_str⟩ ::
      ⟨85 * mmU, y, r.rank_str⟩ :: (noteInstrs r.note_str y).1 := rfl

lemma rowInstrs_filter_label (r : RowData) (y : Int) :
    ((rowInstrs r y).1.filter (fun i => i.x == 20 * mmU)).map
      (fun i => i.text) = [r.name] := by
  rw [rowInstrs_fst]
  simp only [List.filter_cons, x20_beq, x60_beq, x85_beq, if_true, if_false,
    noteInstrs_filter_label]
  rfl

lemma renderGroup_filter_label : ∀ (g : List RowData) (y : Int),
    ((renderGroup y g).filter (fun i => i.x == 20 * mmU)).map
      (fun i => i.text) = g.map (fun r => r.name) := by
  intro g
  induction g with
  | nil => intro y; rfl
  | cons r t ih =>
    intro y
    simp only [renderGroup, List.filter_append, List.map_append,
      rowInstrs_filter_label, ih, List.map_cons]
    rfl

lemma headerInstrs_filter_label (t : String) (b : Bool) :
    (headerInstrs t b).filter (fun i => i.x == 20 * mmU) =
      [⟨20 * mmU, heightU - 20 * mmU, if b then t ++ "（續）" else t⟩,
       ⟨20 * mmU, heightU - 30 * mmU, "科目"⟩] := by
  simp only [headerInstrs, List.filter_cons, x20_beq, x60_beq, x85_beq,
    x110_beq, if_true, if_false]
  rfl

lemma pageLabels_header_group (t : String) (b : Bool) (y : Int)
    (g : List RowData) :
    pageLabels (headerInstrs t b ++ renderGroup y g) =
      g.map (fun r => r.name) := by
  rw [pageLabels, List.filter_append, headerInstrs_filter_label,
    List.map_append]
  simp only [List.map_cons, List.map_nil, List.cons_append, List.nil_append,
    List.drop_succ_cons, List.drop_zero]
  exact renderGroup_filter_label g y

lemma headerInstrs_take (t : String) (b : Bool) (l : List DrawInstr) :
    (headerInstrs t b ++ l).take 5 = headerInstrs t b := by
  rw [show (5 : Nat) = (headerInstrs t b).length from rfl]
  exact List.take_left _ _

/-- Decomposition of the page sequence produced by the drawing loop: the
current page is extended by whole row blocks, and any further page is a
continued header followed by whole row blocks; the groups partition the
input rows in order.  In particular a page break never falls inside a
row (between wrapped note lines). -/
lemma pagesLoop_decompose (t : String) :
    ∀ (rows : List RowData) (cur : List DrawInstr) (y : Int),
      ∃ (g : List RowData) (gs : List (List RowData)),
        g ++ gs.flatten = rows ∧
        pagesLoop t cur y rows =
          (cur ++ renderGroup y g) ::
            gs.map (fun gr => headerInstrs t true ++ renderGroup yStartU gr) := by
  intro rows
  induction rows with
  | nil =>
    intro cur y
    exact ⟨[], [], rfl, by simp [pagesLoop, renderGroup]⟩
  | cons r rs ih =>
    intro cur y
    by_cases hy : y < breakYU
    · obtain ⟨g, gs, hflat, hpages⟩ :=
        ih (headerInstrs t true ++ (rowInstrs r yStartU).1)
          ((rowInstrs r yStartU).2)
      refine ⟨[], (r :: g) :: gs, ?_, ?_⟩
      · simp only [List.flatten_cons, List.nil_append, List.cons_append,
          List.append_assoc] at hflat ⊢
        rw [hflat]
      · simp only [pagesLoop]
        rw [if_pos hy, hpages]
        simp only [renderGroup, List.map_cons, List.append_assoc,
          List.append_nil]
    · obtain ⟨g, gs, hflat, hpages⟩ :=
        ih (cur ++ (rowInstrs r y).1) ((rowInstrs r y).2)
      refine ⟨r :: g, gs, ?_, ?_⟩
      · simp only [List.cons_append]
        rw [hflat]
      · simp only [pagesLoop]
        rw [if_neg hy, hpages]
        simp only [renderGroup, List.append_assoc]

lemma mkRow_name (d : String) (st : Store) (subj : Subject) :
    (mkRow d st subj).name = subj.name := by
  unfold mkRow
  cases scoresMapGet (scoresForDate st d) subj.id with
  | none => rfl
  | some r => rfl

/-- The label-column extraction of the whole report: one label per
registered subject, in `ORDER BY name` order. -/
lemma dataLabels_export (d : String) (registry : List Subject) (st : Store) :
    dataLabels (export_pdf d registry st) =
      (sortByName registry).map (fun s => s.name) := by
  obtain ⟨g, gs, hflat, hpages⟩ := pagesLoop_decompose (reportTitle d)
    (reportRows d registry st) (headerInstrs (reportTitle d) false) yStartU
  rw [export_pdf, hpages, dataLabels]
  simp only [List.map_cons, List.map_map]
  rw [pageLabels_header_group]
  have hcomp : (fun gr => pageLabels (headerInstrs (reportTitle d) true ++
      renderGroup yStartU gr)) = fun gr : List RowData =>
        gr.map (fun r => r.name) := by
    funext gr
    exact pageLabels_header_group _ _ _ _
  rw [show (pageLabels ∘ fun gr => headerInstrs (reportTitle d) true ++
      renderGroup yStartU gr) = fun gr : List RowData =>
        gr.map (fun r => r.name) from hcomp]
  rw [List.flatten_cons, ← List.map_flatten, ← List.map_append, hflat,
    reportRows, List.map_map]
  exact List.map_congr_left (fun s _ => mkRow_name d st s)

lemma charListLe_total : ∀ a b : List Char,
    charListLe a b = true ∨ charListLe b a = true := by
  intro a
  induction a with
  | nil => intro b; exact .inl rfl
  | cons x xs ih =>
    intro b
    cases b with
    | nil => exact .inr rfl
    | cons y ys =>
      by_cases hxy : x = y
      · subst hxy
        rcases ih ys with h | h
        · exact .inl (by simp [charListLe, h])
        · exact .inr (by simp [charListLe, h])
      · rcases lt_or_gt_of_ne hxy with h | h
        · exact .inl (by simp [charListLe, hxy, h])
        · exact .inr (by simp [charListLe, Ne.symm hxy, h])

lemma charListLe_trans : ∀ a b c : List Char, charListLe a b = true →
    charListLe b c = true → charListLe a c = true := by
  intro a
  induction a with
  | nil => intro b c _ _; rfl
  | cons x xs ih =>
    intro b c hab hbc
    cases b with
    | nil => simp [charListLe] at hab
    | cons y ys =>
      cases c with
      | nil => simp [charListLe] at hbc
      | cons z zs =>
        by_cases hxy : x = y
        · subst hxy
          by_cases hxz : x = z
          · subst hxz
            simp only [charListLe, if_pos rfl] at hab hbc ⊢
            exact ih ys zs hab hbc
          · simp only [charListLe, if_neg hxz] at hbc ⊢
            exact hbc
        · by_cases hyz : y = z
          · subst hyz
            simp only [charListLe, if_neg hxy] at hab ⊢
            exact hab
          · simp only [charListLe, if_neg hxy, decide_eq_true_eq] at hab
            simp only [charListLe, if_neg hyz, decide_eq_true_eq] at hbc
            have hxz : x < z := lt_trans hab hbc
            simp only [charListLe, if_neg (ne_of_lt hxz), decide_eq_true_eq]
            exact hxz

/-! ### Claims about the report renderer -/

/-- C7: every input row is drawn exactly once across the page sequence, in
input order (the label column of the pages, after each page's title and
header labels, lists exactly the report rows in order), and every page
begins with the title line (suffixed on later pages) followed by the
column header row. -/
theorem c7_rows_once_in_order_with_headers (d : String)
    (registry : List Subject) (st : Store) :
    dataLabels (export_pdf d registry st) =
      (sortByName registry).map (fun s => s.name) ∧
    ∃ n, (export_pdf d registry st).map (fun p => p.take 5) =
      headerInstrs (reportTitle d) false ::
        List.replicate n (headerInstrs (reportTitle d) true) := by
  refine ⟨dataLabels_export d registry st, ?_⟩
  obtain ⟨g, gs, hflat, hpages⟩ := pagesLoop_decompose (reportTitle d)
    (reportRows d registry st) (headerInstrs (reportTitle d) false) yStartU
  refine ⟨gs.length, ?_⟩
  simp only [export_pdf]
  rw [hpages]
  simp only [List.map_cons, List.map_map]
  rw [headerInstrs_take]
  congr 1
  rw [show ((fun p : List DrawInstr => p.take 5) ∘ fun gr : List RowData =>
      headerInstrs (reportTitle d) true ++ renderGroup yStartU gr) =
      fun _ : List RowData => headerInstrs (reportTitle d) true
    from funext fun gr => headerInstrs_take _ _ _]
  exact List.map_const' gs _

/-- C8: a note longer than `max_chars` is split into fixed-width chunks by
character count whose rendered line texts concatenate back to the original
note exactly; an 85-character note with the 40-character limit renders as
exactly 3 lines of 40, 40 and 5 characters, emitted inside the row's
instruction block right after its label, score and rank cells. -/
theorem c8_note_wrap_roundtrip (note : String) (y : Int)
    (hlen : note.length > maxNoteChars) :
    String.join ((noteInstrs note y).1.map (fun i => i.text)) = note ∧
    (noteInstrs (String.mk (List.replicate 85 'b')) y).1.map
      (fun i => i.text.length) = [40, 40, 5] ∧
    (rowInstrs ⟨"A", "", "", String.mk (List.replicate 85 'b')⟩ y).1.map
      (fun i => i.text) =
      ["A", "", "", String.mk (List.replicate 40 'b'),
       String.mk (List.replicate 40 'b'), String.mk (List.replicate 5 'b')] :=
  ⟨noteInstrs_texts_join note y, rfl, rfl⟩

/-- C8 witness: the round trip and the 40+40+5 wrapping at the concrete
85-character note. -/
theorem c8_witness :
    String.join ((noteInstrs (String.mk (List.replicate 85 'b')) 0).1.map
      (fun i => i.text)) = String.mk (List.replicate 85 'b') ∧
    (noteInstrs (String.mk (List.replicate 85 'b')) 0).1.map
      (fun i => i.text.length) = [40, 40, 5] ∧
    (rowInstrs ⟨"A", "", "", String.mk (List.replicate 85 'b')⟩ 0).1.map
      (fun i => i.text) =
      ["A", "", "", String.mk (List.replicate 40 'b'),
       String.mk (List.replicate 40 'b'), String.mk (List.replicate 5 'b')] :=
  c8_note_wrap_roundtrip (String.mk (List.replicate 85 'b')) 0 (by decide)

/-- C9: the page-break test happens only before starting a row, never
between the wrapped continuation lines of a note: the page sequence
decomposes into whole row blocks (each row's instructions, wrapped note
lines included, lie on a single page), and concretely a row begun exactly
at the margin draws its wrapped second note line below the nominal bottom
margin on the same page. -/
theorem c9_break_only_before_rows (d : String) (registry : List Subject)
    (st : Store) :
    (∃ (g : List RowData) (gs : List (List RowData)),
      g ++ gs.flatten = reportRows d registry st ∧
      export_pdf d registry st =
        (headerInstrs (reportTitle d) false ++ renderGroup yStartU g) ::
          gs.map (fun gr => headerInstrs (reportTitle d) true ++
            renderGroup yStartU gr)) ∧
    (¬(breakYU < breakYU) ∧
      pagesLoop "T" (headerInstrs "T" false) breakYU
          [⟨"s", "", "", String.mk (List.replicate 41 'x')⟩] =
        [headerInstrs "T" false ++
          (rowInstrs ⟨"s", "", "", String.mk (List.replicate 41 'x')⟩
            breakYU).1] ∧
      ∃ i1 i2, (noteInstrs (String.mk (List.replicate 41 'x')) breakYU).1 =
          [i1, i2] ∧ i2.y < breakYU) := by
  constructor
  · obtain ⟨g, gs, hflat, hpages⟩ := pagesLoop_decompose (reportTitle d)
      (reportRows d registry st) (headerInstrs (reportTitle d) false) yStartU
    refine ⟨g, gs, hflat, ?_⟩
    simp only [export_pdf]
    rw [hpages]
  · refine ⟨by decide, by decide,
      ⟨110 * mmU, breakYU, String.mk (List.replicate 40 'x')⟩,
      ⟨110 * mmU, breakYU - (lineHU - 2 * ptU), String.mk ['x']⟩,
      by decide, by decide⟩

/-- C10: the report contains exactly one row per registered subject — a
permutation of the registry's names — listed in ascending display-name
order, and a subject without a record for the date is still drawn, with
empty score, rank and note cells. -/
theorem c10_row_per_subject_sorted_empty_cells (d : String)
    (registry : List Subject) (st : Store) :
    dataLabels (export_pdf d registry st) =
      (sortByName registry).map (fun s => s.name) ∧
    (dataLabels (export_pdf d registry st)).Perm
      (registry.map (fun s => s.name)) ∧
    List.Pairwise (fun a b : String => charListLe a.data b.data = true)
      (dataLabels (export_pdf d registry st)) ∧
    ∀ subj : Subject, scoresMapGet (scoresForDate st d) subj.id = none →
      mkRow d st subj = ⟨subj.name, "", "", ""⟩ := by
  haveI : IsTotal Subject nameLe := ⟨fun a b => charListLe_total _ _⟩
  haveI : IsTrans Subject nameLe :=
    ⟨fun a b c hab hbc => charListLe_trans _ _ _ hab hbc⟩
  have hsorted : List.Sorted nameLe (sortByName registry) :=
    List.sorted_insertionSort nameLe registry
  refine ⟨dataLabels_export d registry st, ?_, ?_, ?_⟩
  · rw [dataLabels_export]
    exact List.Perm.map (fun s => s.name)
      (List.perm_insertionSort nameLe registry)
  · rw [dataLabels_export]
    exact List.pairwise_map.mpr hsorted
  · intro subj h
    simp only [mkRow, h]

/-- C10 witness: a registry with one subject and an empty store yields one
row with that subject's name, and its cells render empty. -/
theorem c10_witness :
    dataLabels (export_pdf "2024-01-10" [⟨3, "數學"⟩] []) = ["數學"] ∧
    mkRow "2024-01-10" [] ⟨3, "數學"⟩ = ⟨"數學", "", "", ""⟩ :=
  ⟨(c10_row_per_subject_sorted_empty_cells "2024-01-10" [⟨3, "數學"⟩] []).1,
   (c10_row_per_subject_sorted_empty_cells "2024-01-10"
     [⟨3, "數學"⟩] []).2.2.2 ⟨3, "數學"⟩ rfl⟩
